import Mathlib

open scoped List

/-!
Shallow embedding of the bucketing-and-aggregation analysis engine of the
`top-coder-challenge` repository (files `src/initial_investigation/analyze_data.py`
and `src/initial_investigation/detailed_analysis.py`), together with theorems
settling the specification claims about it.

Conventions of the embedding:
* JSON numbers are modelled as rationals (`ℚ`); `trip_duration_days` is an
  integer (`ℤ`) as the spec's data model states.
* Python's built-in `round` (round-half-to-even on exact values) is modelled
  by `pyRound`.
* A Python `dict` accumulated in insertion order is modelled by an association
  list (`List (K × List Case)`); appending a case to its key's list mirrors
  `by_days[days].append(case)` / `defaultdict(list)` accumulation.
* A Python expression that can raise (`statistics.mean` on an empty list,
  `d[k]` on a missing key, division by zero) is modelled with `Option`:
  `none` is the raised exception.
-/

/-- One historical example of the legacy reimbursement calculator, as read
from `public_cases.json`: the three inputs and the recorded output. -/
structure Case where
  trip_duration_days : ℤ
  miles_traveled : ℚ
  total_receipts_amount : ℚ
  expected_output : ℚ
deriving DecidableEq, Repr

/-- Python's built-in `round` to an integer: round to nearest, ties to even
(banker's rounding), the convention both bucketing sites of the source rely
on via `round(x / n) * n`. -/
def pyRound (q : ℚ) : ℤ :=
  if q - (⌊q⌋ : ℚ) < 1 / 2 then ⌊q⌋
  else if (1 : ℚ) / 2 < q - (⌊q⌋ : ℚ) then ⌊q⌋ + 1
  else if ⌊q⌋ % 2 = 0 then ⌊q⌋ else ⌊q⌋ + 1

/-- Division modelled with Python semantics: dividing by zero raises
(`none`); otherwise the exact quotient. -/
def safeDiv (a b : ℚ) : Option ℚ :=
  if b = 0 then none else some (a / b)

/-- The embedding of `statistics.mean`: raises `StatisticsError` (modelled
as `none`) on an empty list, otherwise returns the arithmetic mean. -/
def mean (l : List ℚ) : Option ℚ :=
  if l = [] then none else some (l.sum / (l.length : ℚ))

section Grouping

variable {K : Type} [DecidableEq K]

/-- One step of dict-of-lists accumulation: append `c` to the entry of key
`k`, or create a fresh entry at the end when `k` is not yet present.  This is
`by_days[days].append(case)` after the `if days not in by_days` guard in
`analyze_data.py`, and the `defaultdict(list)` appends of
`detailed_analysis.py`. -/
def insertCase (k : K) (c : Case) : List (K × List Case) → List (K × List Case)
  | [] => [(k, [c])]
  | kg :: rest =>
    if kg.1 = k then (kg.1, kg.2 ++ [c]) :: rest else kg :: insertCase k c rest

/-- Left fold of `insertCase` over the corpus: the single grouping pass of
both scripts. -/
def groupByAux (key : Case → K) : List (K × List Case) → List Case → List (K × List Case)
  | acc, [] => acc
  | acc, c :: rest => groupByAux key (insertCase (key c) c acc) rest

/-- Group a corpus by a key function, keys in first-occurrence order and
cases of a group in corpus order, exactly as the Python dict accumulation
produces them. -/
def groupBy (key : Case → K) (corpus : List Case) : List (K × List Case) :=
  groupByAux key [] corpus

/-- Dictionary lookup `d[k]`: `none` models the `KeyError` raised when the
key is absent. -/
def lookupGroup : List (K × List Case) → K → Option (List Case)
  | [], _ => none
  | kg :: rest, k => if kg.1 = k then some kg.2 else lookupGroup rest k

/-- The cases stored under key `k`, defaulting to the empty list when the
key is absent (used only to state order properties). -/
def findGroup (gs : List (K × List Case)) (k : K) : List Case :=
  (lookupGroup gs k).getD []

/-- All cases of all groups, in storage order. -/
def allCases : List (K × List Case) → List Case
  | [] => []
  | kg :: rest => kg.2 ++ allCases rest

end Grouping

/-- The exact-day grouping key of `analyze_data.py` (line 21): the trip
duration itself, no rounding. -/
def exactDayKey (c : Case) : ℤ :=
  c.trip_duration_days

/-- The mileage-tier grouping key of `detailed_analysis.py` (lines 37-39):
exact day count paired with mileage rounded to the nearest 50. -/
def mileageTierKey (c : Case) : ℤ × ℤ :=
  (c.trip_duration_days, pyRound (c.miles_traveled / 50) * 50)

/-- Per-case efficiency, `miles_traveled / trip_duration_days`
(`detailed_analysis.py` line 58, `analyze_data.py` line 56). -/
def efficiency (c : Case) : ℚ :=
  c.miles_traveled / (c.trip_duration_days : ℚ)

/-- The efficiency-tier grouping key of `detailed_analysis.py` (line 64):
efficiency rounded to the nearest 25; the day count is not part of the key. -/
def efficiencyTierKey (c : Case) : ℤ :=
  pyRound (efficiency c / 25) * 25

/-- The implied per-mile rate of `analyze_data.py` (lines 45-46): the
baseline `$100` is hard-coded (`remaining = output - 100`), and a case with
zero mileage is given rate `0` by the inline guard
(`remaining / miles if miles > 0 else 0`). -/
def impliedRate (c : Case) : ℚ :=
  if 0 < c.miles_traveled then (c.expected_output - 100) / c.miles_traveled else 0

/-- The implied-rate metric as the specification describes it for a
zero-mileage case: the metric is skipped and reported as undefined (`none`)
rather than computed.  Stated only to compare against the source's
`impliedRate`, which substitutes `0` instead. -/
def impliedRateUndefinedPolicy (c : Case) : Option ℚ :=
  if c.miles_traveled = 0 then none
  else some ((c.expected_output - 100) / c.miles_traveled)

/-- The bonus-over-baseline of `analyze_data.py` (lines 54-55): the baseline
`5 * 100` is hard-coded (`base_expected = 5 * 100`). -/
def bonus (c : Case) : ℚ :=
  c.expected_output - 5 * 100

/-- Mean of `expected_output` over a group: the statistics summarizer
(`statistics.mean(outputs)` in `analyze_data.py` line 30). -/
def meanOutput (g : List Case) : Option ℚ :=
  mean (g.map (fun c => c.expected_output))

/-- Average output per day of an efficiency bucket, `detailed_analysis.py`
line 71: the mean over the bucket's cases of `expected_output /
trip_duration_days` — the per-case-then-average form. -/
def avgOutputPerDay (g : List Case) : Option ℚ :=
  mean (g.map (fun c => c.expected_output / (c.trip_duration_days : ℚ)))

section Sorting

variable {α β : Type} [LinearOrder β]

/-- Stable insertion of `a` into a list sorted ascending by `f`. -/
def insertSorted (f : α → β) (a : α) : List α → List α
  | [] => [a]
  | b :: rest => if f a ≤ f b then a :: b :: rest else b :: insertSorted f a rest

/-- Stable ascending sort by a key function, modelling Python's
`list.sort(key=...)` / `sorted(...)` (Timsort is stable). -/
def sortBy (f : α → β) : List α → List α
  | [] => []
  | a :: rest => insertSorted f a (sortBy f rest)

end Sorting

/-- The receipt-impact reporting step of `detailed_analysis.py` (lines
43-51): every group of the mileage-tier mapping with at least 3 cases and at
most 5 days is sorted **in place** by `total_receipts_amount`
(`cases.sort(key=...)` mutates the list stored in the dict), the rest are
left untouched. -/
def mileageReport (corpus : List Case) : List ((ℤ × ℤ) × List Case) :=
  (groupBy mileageTierKey corpus).map (fun kg =>
    if 3 ≤ kg.2.length ∧ kg.1.1 ≤ 5 then
      (kg.1, sortBy (fun c => c.total_receipts_amount) kg.2)
    else kg)

/-- The per-day summary of `analyze_data.py` (lines 26-31): for each day
count in ascending order, the case count, mean output, and mean output
divided by the day count.  The two divisions that can raise
(`statistics.mean` on an empty list, `avg_output/days` with a zero day
count) are modelled with `Option`; the groups produced by `groupBy` are
never empty, so the mean never raises here. -/
def perDaySummary (corpus : List Case) : List (ℤ × ℕ × Option ℚ × Option ℚ) :=
  (sortBy (fun kg => kg.1) (groupBy exactDayKey corpus)).map (fun kg =>
    (kg.1, kg.2.length, meanOutput kg.2,
      (meanOutput kg.2).bind (fun m => safeDiv m (kg.1 : ℚ))))

/-- The whole `analyze_data` pass: the per-day summary, then the implied
rates of the first 10 one-day cases (`by_days[1][:10]`, a `KeyError` —
`none` — when no one-day case exists), then the bonus and efficiency of the
first 10 five-day cases (`by_days[5][:10]`, likewise). -/
def analyzeData (corpus : List Case) :
    Option (List (ℤ × ℕ × Option ℚ × Option ℚ) × List ℚ × List (ℚ × ℚ)) :=
  (lookupGroup (groupBy exactDayKey corpus) 1).bind (fun one_day =>
    (lookupGroup (groupBy exactDayKey corpus) 5).bind (fun five_day =>
      some (perDaySummary corpus,
        (one_day.take 10).map impliedRate,
        (five_day.take 10).map (fun c => (bonus c, efficiency c)))))

/-- Grouping completeness of one policy on one corpus: the multiset of all
grouped cases is the corpus, keys are pairwise distinct, and every case sits
in the group of its own key. -/
def completeGrouping {K : Type} [DecidableEq K] (key : Case → K) (corpus : List Case) : Prop :=
  ((allCases (groupBy key corpus) : List Case) : Multiset Case) = (corpus : Multiset Case)
    ∧ ((groupBy key corpus).map Prod.fst).Nodup
    ∧ ∀ kg ∈ groupBy key corpus, ∀ c ∈ kg.2, key c = kg.1

/-- First case of the spec's end-to-end scenario (§8). -/
def case1 : Case := ⟨1, 100, 50, 150⟩

/-- Second case of the spec's end-to-end scenario (§8). -/
def case2 : Case := ⟨1, 200, 80, 220⟩

/-- The two-case corpus of the spec's end-to-end scenario (§8). -/
def scenarioCorpus : List Case := [case1, case2]

/-- A case with efficiency 100 mi/day over one day. -/
def demoCaseA : Case := ⟨1, 100, 0, 100⟩

/-- A case with efficiency 100 mi/day over two days. -/
def demoCaseB : Case := ⟨2, 200, 0, 100⟩

/-- An efficiency-tier group spanning two different day counts (both cases
have rounded efficiency 100 mi/day). -/
def demoGroup : List Case := [demoCaseA, demoCaseB]

/-- A one-day case with efficiency 25 mi/day. -/
def caseE : Case := ⟨1, 25, 0, 100⟩

/-- Five identical one-day cases with efficiency 25 mi/day: a bucket large
enough to pass the `len >= 5` reporting threshold. -/
def corpus5 : List Case := [caseE, caseE, caseE, caseE, caseE]

/-- Three one-day cases in the same nearest-50 mileage bucket (100), with
receipts in strictly descending corpus order, so the receipt-sort of the
reporting step visibly reorders the group. -/
def sortDemoCorpus : List Case :=
  [⟨1, 100, 50, 1⟩, ⟨1, 102, 30, 2⟩, ⟨1, 98, 10, 3⟩]

/-- Evaluation rule for `pyRound` when the fractional part is below one half. -/
theorem pyRound_eval_low (q : ℚ) (z : ℤ) (h₁ : (z : ℚ) ≤ q) (h₂ : q - z < 1 / 2) :
    pyRound q = z := by
  have hf : ⌊q⌋ = z := Int.floor_eq_iff.mpr ⟨h₁, by linarith⟩
  rw [pyRound, hf, if_pos h₂]

/-- Evaluation rule for `pyRound` when the fractional part is above one half. -/
theorem pyRound_eval_high (q : ℚ) (z : ℤ) (h₁ : (1 : ℚ) / 2 < q - z) (h₂ : q < z + 1) :
    pyRound q = z + 1 := by
  have hf : ⌊q⌋ = z := Int.floor_eq_iff.mpr ⟨by linarith, by linarith⟩
  rw [pyRound, hf, if_neg (by linarith), if_pos h₁]

/-- Evaluation rule for `pyRound` at an exact half with even integer part:
ties go to the even neighbour. -/
theorem pyRound_eval_half_even (q : ℚ) (z : ℤ) (h : q - z = 1 / 2) (he : z % 2 = 0) :
    pyRound q = z := by
  have hf : ⌊q⌋ = z := Int.floor_eq_iff.mpr ⟨by linarith, by linarith⟩
  rw [pyRound, hf, if_neg (by rw [h]; exact lt_irrefl _), if_neg (by rw [h]; exact lt_irrefl _),
    if_pos he]

/-- Evaluation rule for `pyRound` at an exact half with odd integer part. -/
theorem pyRound_eval_half_odd (q : ℚ) (z : ℤ) (h : q - z = 1 / 2) (ho : z % 2 = 1) :
    pyRound q = z + 1 := by
  have hf : ⌊q⌋ = z := Int.floor_eq_iff.mpr ⟨by linarith, by linarith⟩
  rw [pyRound, hf, if_neg (by rw [h]; exact lt_irrefl _), if_neg (by rw [h]; exact lt_irrefl _),
    if_neg (by rw [ho]; exact one_ne_zero)]

section GroupingLemmas

variable {K : Type} [DecidableEq K] {key : Case → K}

theorem mem_keys_insertCase {x k : K} {c : Case} {acc : List (K × List Case)} :
    x ∈ (insertCase k c acc).map Prod.fst ↔ x = k ∨ x ∈ acc.map Prod.fst := by
  induction acc with
  | nil => simp [insertCase]
  | cons kg rest ih =>
    by_cases h : kg.1 = k
    · simp only [insertCase]
      rw [if_pos h]
      simp only [List.map_cons, List.mem_cons]
      rw [h]
      tauto
    · simp only [insertCase]
      rw [if_neg h]
      simp only [List.map_cons, List.mem_cons, ih]
      tauto

theorem mem_keys_groupByAux {x : K} {acc : List (K × List Case)} {l : List Case} :
    x ∈ (groupByAux key acc l).map Prod.fst ↔ x ∈ acc.map Prod.fst ∨ x ∈ l.map key := by
  induction l generalizing acc with
  | nil => simp [groupByAux]
  | cons c rest ih =>
    simp only [groupByAux, ih, mem_keys_insertCase, List.map_cons, List.mem_cons]
    tauto

theorem mem_keys_groupBy {x : K} {corpus : List Case} :
    x ∈ (groupBy key corpus).map Prod.fst ↔ x ∈ corpus.map key := by
  rw [groupBy, mem_keys_groupByAux]
  simp

theorem nodup_keys_insertCase {k : K} {c : Case} {acc : List (K × List Case)}
    (h : (acc.map Prod.fst).Nodup) : ((insertCase k c acc).map Prod.fst).Nodup := by
  induction acc with
  | nil => simp [insertCase]
  | cons kg rest ih =>
    rw [List.map_cons, List.nodup_cons] at h
    by_cases hk : kg.1 = k
    · simpa only [insertCase, if_pos hk, List.map_cons, List.nodup_cons] using h
    · simp only [insertCase, if_neg hk, List.map_cons, List.nodup_cons]
      refine ⟨fun hmem => ?_, ih h.2⟩
      rcases mem_keys_insertCase.mp hmem with h1 | h1
      · exact hk h1
      · exact h.1 h1

theorem nodup_keys_groupByAux {acc : List (K × List Case)} {l : List Case}
    (h : (acc.map Prod.fst).Nodup) : ((groupByAux key acc l).map Prod.fst).Nodup := by
  induction l generalizing acc with
  | nil => simpa [groupByAux] using h
  | cons c rest ih =>
    simp only [groupByAux]
    exact ih (nodup_keys_insertCase h)

theorem nodup_keys_groupBy {corpus : List Case} :
    ((groupBy key corpus).map Prod.fst).Nodup :=
  nodup_keys_groupByAux (by simp)

theorem keyCorrect_insertCase {k : K} {c : Case} {acc : List (K × List Case)}
    (hc : key c = k) (h : ∀ kg ∈ acc, ∀ x ∈ kg.2, key x = kg.1) :
    ∀ kg ∈ insertCase k c acc, ∀ x ∈ kg.2, key x = kg.1 := by
  induction acc with
  | nil =>
    intro kg hkg x hx
    simp only [insertCase, List.mem_singleton] at hkg
    subst hkg
    simp only [List.mem_singleton] at hx
    subst hx
    exact hc
  | cons kg0 rest ih =>
    intro kg hkg x hx
    by_cases hk : kg0.1 = k
    · simp only [insertCase, if_pos hk] at hkg
      rcases List.mem_cons.mp hkg with rfl | hmem
      · rcases List.mem_append.mp hx with hx1 | hx1
        · exact h kg0 (List.mem_cons_self _ _) x hx1
        · simp only [List.mem_singleton] at hx1
          subst hx1
          rw [hc, hk]
      · exact h kg (List.mem_cons_of_mem _ hmem) x hx
    · simp only [insertCase, if_neg hk] at hkg
      rcases List.mem_cons.mp hkg with rfl | hmem
      · exact h kg (List.mem_cons_self _ _) x hx
      · exact ih (fun kg' h' => h kg' (List.mem_cons_of_mem _ h')) kg hmem x hx

theorem keyCorrect_groupByAux {acc : List (K × List Case)} {l : List Case}
    (h : ∀ kg ∈ acc, ∀ x ∈ kg.2, key x = kg.1) :
    ∀ kg ∈ groupByAux key acc l, ∀ x ∈ kg.2, key x = kg.1 := by
  induction l generalizing acc with
  | nil => simpa [groupByAux] using h
  | cons c rest ih =>
    simp only [groupByAux]
    exact ih (keyCorrect_insertCase rfl h)

theorem keyCorrect_groupBy {corpus : List Case} :
    ∀ kg ∈ groupBy key corpus, ∀ x ∈ kg.2, key x = kg.1 :=
  keyCorrect_groupByAux (by simp)

theorem nonempty_insertCase {k : K} {c : Case} {acc : List (K × List Case)}
    (h : ∀ kg ∈ acc, kg.2 ≠ []) : ∀ kg ∈ insertCase k c acc, kg.2 ≠ [] := by
  induction acc with
  | nil =>
    intro kg hkg
    simp only [insertCase, List.mem_singleton] at hkg
    subst hkg
    simp
  | cons kg0 rest ih =>
    intro kg hkg
    by_cases hk : kg0.1 = k
    · simp only [insertCase, if_pos hk] at hkg
      rcases List.mem_cons.mp hkg with rfl | hmem
      · simp
      · exact h kg (List.mem_cons_of_mem _ hmem)
    · simp only [insertCase, if_neg hk] at hkg
      rcases List.mem_cons.mp hkg with rfl | hmem
      · exact h kg (List.mem_cons_self _ _)
      · exact ih (fun kg' h' => h kg' (List.mem_cons_of_mem _ h')) kg hmem

theorem nonempty_groupByAux {acc : List (K × List Case)} {l : List Case}
    (h : ∀ kg ∈ acc, kg.2 ≠ []) : ∀ kg ∈ groupByAux key acc l, kg.2 ≠ [] := by
  induction l generalizing acc with
  | nil => simpa [groupByAux] using h
  | cons c rest ih =>
    simp only [groupByAux]
    exact ih (nonempty_insertCase h)

theorem nonempty_groupBy {corpus : List Case} :
    ∀ kg ∈ groupBy key corpus, kg.2 ≠ [] :=
  nonempty_groupByAux (by simp)

end GroupingLemmas

section OrderLemmas

variable {K : Type} [DecidableEq K] {key : Case → K}

theorem allCases_insertCase {k : K} {c : Case} {acc : List (K × List Case)} :
    allCases (insertCase k c acc) ~ allCases acc ++ [c] := by
  induction acc with
  | nil => simp [insertCase, allCases]
  | cons kg rest ih =>
    by_cases hk : kg.1 = k
    · simp only [insertCase]
      rw [if_pos hk]
      simp only [allCases]
      calc (kg.2 ++ [c]) ++ allCases rest
          = kg.2 ++ ([c] ++ allCases rest) := List.append_assoc _ _ _
        _ ~ kg.2 ++ (allCases rest ++ [c]) := List.Perm.append_left _ List.perm_append_comm
        _ = (kg.2 ++ allCases rest) ++ [c] := (List.append_assoc _ _ _).symm
    · simp only [insertCase]
      rw [if_neg hk]
      simp only [allCases]
      calc kg.2 ++ allCases (insertCase k c rest)
          ~ kg.2 ++ (allCases rest ++ [c]) := List.Perm.append_left _ ih
        _ = (kg.2 ++ allCases rest) ++ [c] := (List.append_assoc _ _ _).symm

theorem allCases_groupByAux {acc : List (K × List Case)} {l : List Case} :
    allCases (groupByAux key acc l) ~ allCases acc ++ l := by
  induction l generalizing acc with
  | nil => simp [groupByAux]
  | cons c rest ih =>
    simp only [groupByAux]
    calc allCases (groupByAux key (insertCase (key c) c acc) rest)
        ~ allCases (insertCase (key c) c acc) ++ rest := ih
      _ ~ (allCases acc ++ [c]) ++ rest := allCases_insertCase.append_right rest
      _ = allCases acc ++ (c :: rest) := by simp

theorem allCases_groupBy {corpus : List Case} :
    allCases (groupBy key corpus) ~ corpus := by
  have h := @allCases_groupByAux K _ key [] corpus
  simpa [groupBy, allCases] using h

theorem findGroup_insertCase {k k' : K} {c : Case} {acc : List (K × List Case)} :
    findGroup (insertCase k' c acc) k
      = if k = k' then findGroup acc k ++ [c] else findGroup acc k := by
  induction acc with
  | nil =>
    by_cases h : k = k'
    · simp [insertCase, findGroup, lookupGroup, h]
    · have h' : k' ≠ k := fun hh => h hh.symm
      simp [insertCase, findGroup, lookupGroup, h, h']
  | cons kg rest ih =>
    by_cases hk : kg.1 = k'
    · by_cases hkk : k = k'
      · subst hkk
        simp [insertCase, findGroup, lookupGroup, hk]
      · have h1 : kg.1 ≠ k := by rw [hk]; exact fun hh => hkk hh.symm
        have h2 : k' ≠ k := fun hh => hkk hh.symm
        simp [insertCase, findGroup, lookupGroup, hk, hkk, h1, h2]
    · simp only [insertCase]
      rw [if_neg hk]
      by_cases hkg : kg.1 = k
      · have h2 : ¬ k = k' := fun hh => hk (hkg.trans hh)
        simp [findGroup, lookupGroup, hkg, h2]
      · simp only [findGroup, lookupGroup]
        rw [if_neg hkg, if_neg hkg]
        simpa [findGroup] using ih

end OrderLemmas

section CharacterizationLemmas

variable {K : Type} [DecidableEq K] {key : Case → K}

theorem findGroup_groupByAux {acc : List (K × List Case)} {l : List Case} {k : K} :
    findGroup (groupByAux key acc l) k
      = findGroup acc k ++ l.filter (fun c => decide (key c = k)) := by
  induction l generalizing acc with
  | nil => simp [groupByAux]
  | cons c rest ih =>
    simp only [groupByAux]
    rw [ih, findGroup_insertCase]
    by_cases h : k = key c
    · simp [List.filter_cons, h]
    · have h' : ¬ (key c = k) := fun hh => h hh.symm
      simp [List.filter_cons, h, h']

theorem findGroup_groupBy {corpus : List Case} {k : K} :
    findGroup (groupBy key corpus) k = corpus.filter (fun c => decide (key c = k)) := by
  rw [groupBy, findGroup_groupByAux]
  simp [findGroup, lookupGroup]

theorem lookupGroup_eq_none {gs : List (K × List Case)} {k : K}
    (h : ∀ kg ∈ gs, kg.1 ≠ k) : lookupGroup gs k = none := by
  induction gs with
  | nil => rfl
  | cons kg rest ih =>
    simp only [lookupGroup]
    rw [if_neg (h kg (List.mem_cons_self _ _))]
    exact ih (fun kg' h' => h kg' (List.mem_cons_of_mem _ h'))

theorem lookupGroup_groupBy_eq_none {corpus : List Case} {k : K}
    (h : ∀ c ∈ corpus, key c ≠ k) : lookupGroup (groupBy key corpus) k = none := by
  apply lookupGroup_eq_none
  intro kg hkg hk1
  have hmem : kg.1 ∈ (groupBy key corpus).map Prod.fst :=
    List.mem_map_of_mem _ hkg
  rw [mem_keys_groupBy] at hmem
  rcases List.mem_map.mp hmem with ⟨c, hc, hkey⟩
  exact h c hc (hkey.trans hk1)

theorem completeGrouping_holds (key : Case → K) (corpus : List Case) :
    completeGrouping key corpus :=
  ⟨Multiset.coe_eq_coe.mpr allCases_groupBy, nodup_keys_groupBy, keyCorrect_groupBy⟩

end CharacterizationLemmas

section EvaluationHelpers

theorem pyRound_100_div_50 : pyRound ((100 : ℚ) / 50) = 2 :=
  pyRound_eval_low _ 2 (by norm_num) (by norm_num)

theorem pyRound_102_div_50 : pyRound ((102 : ℚ) / 50) = 2 :=
  pyRound_eval_low _ 2 (by norm_num) (by norm_num)

theorem pyRound_98_div_50 : pyRound ((98 : ℚ) / 50) = 2 := by
  rw [pyRound_eval_high ((98 : ℚ) / 50) 1 (by norm_num) (by norm_num)]
  decide

theorem effKey_demoA : efficiencyTierKey demoCaseA = 100 := by
  have h : efficiency demoCaseA / 25 = 4 := by norm_num [efficiency, demoCaseA]
  rw [efficiencyTierKey, h, pyRound_eval_low 4 4 (by norm_num) (by norm_num)]
  norm_num

theorem effKey_demoB : efficiencyTierKey demoCaseB = 100 := by
  have h : efficiency demoCaseB / 25 = 4 := by norm_num [efficiency, demoCaseB]
  rw [efficiencyTierKey, h, pyRound_eval_low 4 4 (by norm_num) (by norm_num)]
  norm_num

theorem effKey_caseE : efficiencyTierKey caseE = 25 := by
  have h : efficiency caseE / 25 = 1 := by norm_num [efficiency, caseE]
  rw [efficiencyTierKey, h, pyRound_eval_low 1 1 (by norm_num) (by norm_num)]
  norm_num

theorem mileageKey_sortDemo1 : mileageTierKey ⟨1, 100, 50, 1⟩ = (1, 100) := by
  simp only [mileageTierKey]
  rw [show ((⟨1, 100, 50, 1⟩ : Case).miles_traveled / 50) = (100 : ℚ) / 50 from rfl,
    pyRound_100_div_50]
  decide

theorem mileageKey_sortDemo2 : mileageTierKey ⟨1, 102, 30, 2⟩ = (1, 100) := by
  simp only [mileageTierKey]
  rw [show ((⟨1, 102, 30, 2⟩ : Case).miles_traveled / 50) = (102 : ℚ) / 50 from rfl,
    pyRound_102_div_50]
  decide

theorem mileageKey_sortDemo3 : mileageTierKey ⟨1, 98, 10, 3⟩ = (1, 100) := by
  simp only [mileageTierKey]
  rw [show ((⟨1, 98, 10, 3⟩ : Case).miles_traveled / 50) = (98 : ℚ) / 50 from rfl,
    pyRound_98_div_50]
  decide

theorem meanOutput_nonempty {g : List Case} (hg : g ≠ []) :
    meanOutput g = some ((g.map (fun c => c.expected_output)).sum / (g.length : ℚ)) := by
  have hne : g.map (fun c => c.expected_output) ≠ [] := by
    intro h0
    exact hg (List.eq_nil_of_map_eq_nil h0)
  rw [meanOutput, mean, if_neg hne]
  simp [List.length_map]

theorem avgOutputPerDay_nonempty {g : List Case} (hg : g ≠ []) :
    avgOutputPerDay g
      = some ((g.map (fun c => c.expected_output / (c.trip_duration_days : ℚ))).sum
          / (g.length : ℚ)) := by
  have hne : g.map (fun c => c.expected_output / (c.trip_duration_days : ℚ)) ≠ [] := by
    intro h0
    exact hg (List.eq_nil_of_map_eq_nil h0)
  rw [avgOutputPerDay, mean, if_neg hne]
  simp [List.length_map]

end EvaluationHelpers

section NonemptyHelpers

variable {α β : Type} [LinearOrder β]

theorem insertSorted_ne_nil {f : α → β} {a : α} {l : List α} : insertSorted f a l ≠ [] := by
  cases l with
  | nil => simp [insertSorted]
  | cons b rest =>
    simp only [insertSorted]
    split
    · exact List.cons_ne_nil _ _
    · exact List.cons_ne_nil _ _

theorem sortBy_ne_nil {f : α → β} {l : List α} (h : l ≠ []) : sortBy f l ≠ [] := by
  cases l with
  | nil => exact absurd rfl h
  | cons a rest =>
    simp only [sortBy]
    exact insertSorted_ne_nil

theorem insertCase_ne_nil {K : Type} [DecidableEq K] {k : K} {c : Case}
    {acc : List (K × List Case)} : insertCase k c acc ≠ [] := by
  cases acc with
  | nil => simp [insertCase]
  | cons kg rest =>
    simp only [insertCase]
    split
    · exact List.cons_ne_nil _ _
    · exact List.cons_ne_nil _ _

theorem groupByAux_ne_nil {K : Type} [DecidableEq K] {key : Case → K}
    {acc : List (K × List Case)} {l : List Case} (h : acc ≠ []) :
    groupByAux key acc l ≠ [] := by
  induction l generalizing acc with
  | nil => simpa [groupByAux] using h
  | cons c rest ih =>
    simp only [groupByAux]
    exact ih insertCase_ne_nil

theorem groupBy_ne_nil {K : Type} [DecidableEq K] {key : Case → K}
    {corpus : List Case} (h : corpus ≠ []) : groupBy key corpus ≠ [] := by
  cases corpus with
  | nil => exact absurd rfl h
  | cons c rest =>
    simp only [groupBy, groupByAux]
    exact groupByAux_ne_nil insertCase_ne_nil

theorem perDaySummary_ne_nil {corpus : List Case} (h : corpus ≠ []) :
    perDaySummary corpus ≠ [] := by
  rw [perDaySummary]
  intro h0
  rw [List.map_eq_nil_iff] at h0
  exact sortBy_ne_nil (groupBy_ne_nil h) h0

end NonemptyHelpers

/-- C1: for every corpus satisfying the data-model invariant
(`trip_duration_days ≥ 1`) and each of the three grouping policies (exact
day, mileage-tier, efficiency-tier), grouping assigns each case to exactly
one group — keys are pairwise distinct and every case lies in the group of
its own key — and the multiset union of all groups' cases equals the
corpus: no case is dropped or duplicated. -/
theorem c1_grouping_completeness (corpus : List Case)
    (_hdays : ∀ c ∈ corpus, 1 ≤ c.trip_duration_days) :
    completeGrouping exactDayKey corpus
      ∧ completeGrouping mileageTierKey corpus
      ∧ completeGrouping efficiencyTierKey corpus :=
  ⟨completeGrouping_holds _ _, completeGrouping_holds _ _, completeGrouping_holds _ _⟩

/-- Witness for C1: the theorem instantiated at the two-case scenario
corpus, whose cases all have `trip_duration_days = 1`. -/
theorem c1_grouping_completeness_witness :
    completeGrouping exactDayKey scenarioCorpus
      ∧ completeGrouping mileageTierKey scenarioCorpus
      ∧ completeGrouping efficiencyTierKey scenarioCorpus :=
  c1_grouping_completeness scenarioCorpus
    (by simp [scenarioCorpus, case1, case2])

/-- C2: the mileage-tier key is the pair
`(trip_duration_days, round(miles_traveled / 50) * 50)`, the efficiency-tier
key is `round((miles_traveled / trip_duration_days) / 25) * 25` with the day
count not part of the key, so any two cases with equal rounded efficiency
land in the same efficiency-tier group — concretely, a 1-day and a 2-day
case of efficiency 100 mi/day form a single group. -/
theorem c2_tier_keys :
    (∀ c : Case, mileageTierKey c
        = (c.trip_duration_days, pyRound (c.miles_traveled / 50) * 50))
      ∧ (∀ c : Case, efficiencyTierKey c
          = pyRound ((c.miles_traveled / (c.trip_duration_days : ℚ)) / 25) * 25)
      ∧ (∀ c₁ c₂ : Case,
          pyRound ((c₁.miles_traveled / (c₁.trip_duration_days : ℚ)) / 25)
              = pyRound ((c₂.miles_traveled / (c₂.trip_duration_days : ℚ)) / 25) →
            efficiencyTierKey c₁ = efficiencyTierKey c₂)
      ∧ groupBy efficiencyTierKey demoGroup = [(100, demoGroup)] := by
  refine ⟨fun c => rfl, fun c => rfl, fun c₁ c₂ h => ?_, ?_⟩
  · simp only [efficiencyTierKey, efficiency]
    rw [h]
  · simp [groupBy, groupByAux, insertCase, demoGroup, effKey_demoA, effKey_demoB]

/-- Witness for C2: the 1-day and the 2-day case of efficiency 100 mi/day
receive the same efficiency-tier key. -/
theorem c2_tier_keys_witness : efficiencyTierKey demoCaseA = efficiencyTierKey demoCaseB := by
  refine c2_tier_keys.2.2.1 demoCaseA demoCaseB ?_
  have h1 : (demoCaseA.miles_traveled / (demoCaseA.trip_duration_days : ℚ)) / 25 = 4 := by
    norm_num [demoCaseA]
  have h2 : (demoCaseB.miles_traveled / (demoCaseB.trip_duration_days : ℚ)) / 25 = 4 := by
    norm_num [demoCaseB]
  rw [h1, h2]

/-- C3: both bucketing sites round with the same fixed round-half-to-even
convention (`pyRound`), so a case with `miles_traveled = 25` under bucket
width 50 always buckets to 0 (the even neighbour of the exact half 25/50),
and a case of efficiency 24 and one of efficiency 26 both bucket to
efficiency tier 25 under bucket width 25. -/
theorem c3_bucket_boundaries :
    (∀ c : Case, c.miles_traveled = 25 → (mileageTierKey c).2 = 0)
      ∧ (∀ c : Case, efficiency c = 24 → efficiencyTierKey c = 25)
      ∧ (∀ c : Case, efficiency c = 26 → efficiencyTierKey c = 25) := by
  refine ⟨fun c h => ?_, fun c h => ?_, fun c h => ?_⟩
  · simp only [mileageTierKey]
    show pyRound (c.miles_traveled / 50) * 50 = 0
    rw [h, show ((25 : ℚ) / 50) = 1 / 2 by norm_num,
      pyRound_eval_half_even (1 / 2) 0 (by norm_num) (by decide)]
    decide
  · rw [efficiencyTierKey, h, pyRound_eval_high ((24 : ℚ) / 25) 0 (by norm_num) (by norm_num)]
    decide
  · rw [efficiencyTierKey, h, pyRound_eval_low ((26 : ℚ) / 25) 1 (by norm_num) (by norm_num)]
    decide

/-- Witness for C3: the boundary case `miles = 25` buckets to 0, and the
spec's two efficiency cases (120 miles / 5 days and 130 miles / 5 days)
both land in efficiency tier 25. -/
theorem c3_bucket_boundaries_witness :
    (mileageTierKey ⟨1, 25, 0, 0⟩).2 = 0
      ∧ efficiencyTierKey ⟨5, 120, 0, 0⟩ = 25
      ∧ efficiencyTierKey ⟨5, 130, 0, 0⟩ = 25 :=
  ⟨c3_bucket_boundaries.1 _ rfl,
    c3_bucket_boundaries.2.1 _ (by norm_num [efficiency]),
    c3_bucket_boundaries.2.2 _ (by norm_num [efficiency])⟩

/-- C5: on the spec's two-case corpus, exact-day grouping yields the single
group `{1: [case1, case2]}` in corpus order, its mean output is 185, and the
implied rates (baseline 100) are 0.5/mile for `case1` and 0.6/mile for
`case2`. -/
theorem c5_end_to_end :
    groupBy exactDayKey scenarioCorpus = [(1, [case1, case2])]
      ∧ meanOutput [case1, case2] = some 185
      ∧ impliedRate case1 = 1 / 2
      ∧ impliedRate case2 = 3 / 5 := by
  refine ⟨?_, ?_, ?_, ?_⟩
  · norm_num [groupBy, groupByAux, insertCase, exactDayKey, scenarioCorpus, case1, case2]
  · have h : ([case1, case2].map (fun c => c.expected_output)) = [150, 220] := by
      simp [case1, case2]
    rw [meanOutput, h, mean, if_neg (List.cons_ne_nil _ _)]
    norm_num
  · norm_num [impliedRate, case1]
  · norm_num [impliedRate, case2]

/-- C4 counterexample: on `sortDemoCorpus` the receipt-impact reporting step
of `detailed_analysis.py` sorts the (1, 100)-mile group in place by
receipts, so after the reporting step the group's sequence no longer equals
the corpus order restricted to that group — refuting the claim that no
group is mutated through the end of the analysis pass. -/
theorem c4_report_reorders_counterexample :
    findGroup (mileageReport sortDemoCorpus) ((1 : ℤ), (100 : ℤ))
      ≠ sortDemoCorpus.filter (fun c => decide (mileageTierKey c = ((1 : ℤ), (100 : ℤ)))) := by
  have hrep : mileageReport sortDemoCorpus
      = [(((1 : ℤ), (100 : ℤ)),
          [⟨1, 98, 10, 3⟩, ⟨1, 102, 30, 2⟩, ⟨1, 100, 50, 1⟩])] := by
    norm_num [mileageReport, groupBy, groupByAux, insertCase, sortDemoCorpus,
      mileageKey_sortDemo1, mileageKey_sortDemo2, mileageKey_sortDemo3,
      sortBy, insertSorted]
  have hfil : sortDemoCorpus.filter (fun c => decide (mileageTierKey c = ((1 : ℤ), (100 : ℤ))))
      = [⟨1, 100, 50, 1⟩, ⟨1, 102, 30, 2⟩, ⟨1, 98, 10, 3⟩] := by
    norm_num [sortDemoCorpus, List.filter_cons,
      mileageKey_sortDemo1, mileageKey_sortDemo2, mileageKey_sortDemo3]
  rw [hrep, hfil]
  norm_num [findGroup, lookupGroup, Case.mk.injEq]

/-- C4 amended: at construction time, under each of the three grouping
policies, the sequence of cases inside every group equals the corpus order
restricted to that group; however, the mileage-tier reporting step re-sorts
in place every reported group (at least 3 cases, at most 5 days) by
ascending receipts, so after the reporting step such a group holds the
receipt-sorted permutation of that restriction instead. -/
theorem c4_group_order :
    (∀ (corpus : List Case) (k : ℤ),
        findGroup (groupBy exactDayKey corpus) k
          = corpus.filter (fun c => decide (exactDayKey c = k)))
      ∧ (∀ (corpus : List Case) (k : ℤ × ℤ),
          findGroup (groupBy mileageTierKey corpus) k
            = corpus.filter (fun c => decide (mileageTierKey c = k)))
      ∧ (∀ (corpus : List Case) (k : ℤ),
          findGroup (groupBy efficiencyTierKey corpus) k
            = corpus.filter (fun c => decide (efficiencyTierKey c = k)))
      ∧ findGroup (mileageReport sortDemoCorpus) ((1 : ℤ), (100 : ℤ))
        = sortBy (fun c => c.total_receipts_amount)
            (sortDemoCorpus.filter (fun c => decide (mileageTierKey c = ((1 : ℤ), (100 : ℤ))))) := by
  refine ⟨fun _ _ => findGroup_groupBy, fun _ _ => findGroup_groupBy,
    fun _ _ => findGroup_groupBy, ?_⟩
  norm_num [mileageReport, groupBy, groupByAux, insertCase, sortDemoCorpus,
    mileageKey_sortDemo1, mileageKey_sortDemo2, mileageKey_sortDemo3,
    sortBy, insertSorted, findGroup, lookupGroup, List.filter_cons]

/-- C6: the average output per day reported for an efficiency bucket that
passes the `len >= 5` threshold is the arithmetic mean over the bucket's
cases of `expected_output / trip_duration_days` (per-case-then-average); on
the concrete bucket `demoGroup`, which spans day counts 1 and 2, that value
(75) differs from the group's mean output divided by either representative
day count (100 and 50). -/
theorem c6_per_case_then_average :
    (∀ (corpus : List Case) (kg : ℤ × List Case),
        kg ∈ groupBy efficiencyTierKey corpus → 5 ≤ kg.2.length →
        avgOutputPerDay kg.2
          = some ((kg.2.map (fun c => c.expected_output / (c.trip_duration_days : ℚ))).sum
              / (kg.2.length : ℚ)))
      ∧ avgOutputPerDay demoGroup ≠ (meanOutput demoGroup).map (fun m => m / 1)
      ∧ avgOutputPerDay demoGroup ≠ (meanOutput demoGroup).map (fun m => m / 2) := by
  have havg : avgOutputPerDay demoGroup = some 75 := by
    have h : (demoGroup.map (fun c => c.expected_output / (c.trip_duration_days : ℚ)))
        = [100, 50] := by
      norm_num [demoGroup, demoCaseA, demoCaseB]
    rw [avgOutputPerDay, h, mean, if_neg (List.cons_ne_nil _ _)]
    norm_num [demoGroup]
  have hmean : meanOutput demoGroup = some 100 := by
    have h : (demoGroup.map (fun c => c.expected_output)) = [100, 100] := by
      simp [demoGroup, demoCaseA, demoCaseB]
    rw [meanOutput, h, mean, if_neg (List.cons_ne_nil _ _)]
    norm_num [demoGroup]
  refine ⟨fun corpus kg hmem hlen => ?_, ?_, ?_⟩
  · have hne : kg.2 ≠ [] := nonempty_groupBy kg hmem
    exact avgOutputPerDay_nonempty hne
  · rw [havg, hmean]
    norm_num
  · rw [havg, hmean]
    norm_num

/-- Witness for C6: the theorem applied to the five-case corpus whose single
efficiency bucket (tier 25) passes the threshold. -/
theorem c6_per_case_then_average_witness :
    avgOutputPerDay corpus5
      = some ((corpus5.map (fun c => c.expected_output / (c.trip_duration_days : ℚ))).sum
          / (corpus5.length : ℚ)) :=
  c6_per_case_then_average.1 corpus5 ((25 : ℤ), corpus5)
    (by norm_num [groupBy, groupByAux, insertCase, corpus5, effKey_caseE])
    (by norm_num [corpus5])

/-- C7 counterexample: at the zero-mileage case (1 day, 0 miles), the
source's implied-rate site computes the value 0 (`... if miles > 0 else 0`)
instead of skipping the metric and reporting it as undefined, refuting the
claim's description of the zero-divisor policy. -/
theorem c7_zero_mileage_counterexample :
    some (impliedRate ⟨1, 0, 50, 150⟩) ≠ impliedRateUndefinedPolicy ⟨1, 0, 50, 150⟩ := by
  have h1 : impliedRate ⟨1, 0, 50, 150⟩ = 0 := by norm_num [impliedRate]
  have h2 : impliedRateUndefinedPolicy ⟨1, 0, 50, 150⟩ = none := by
    norm_num [impliedRateUndefinedPolicy]
  rw [h1, h2]
  exact fun hh => Option.noConfusion hh

/-- C7 amended: on a corpus whose cases all satisfy
`trip_duration_days ≥ 1`, no division in either analysis pass divides by
zero — every division whose divisor is a day count (efficiency, output per
day, receipts per day, and the per-day mean over any exact-day group's key)
succeeds — and the single division whose divisor is `miles_traveled` is
guarded, yielding the substitute value 0 (not an undefined marker) when
`miles_traveled = 0`. -/
theorem c7_no_division_by_zero (corpus : List Case)
    (hdays : ∀ c ∈ corpus, 1 ≤ c.trip_duration_days) :
    (∀ c ∈ corpus, (safeDiv c.miles_traveled (c.trip_duration_days : ℚ)).isSome
        ∧ (safeDiv c.expected_output (c.trip_duration_days : ℚ)).isSome
        ∧ (safeDiv c.total_receipts_amount (c.trip_duration_days : ℚ)).isSome)
      ∧ (∀ kg ∈ groupBy exactDayKey corpus, ∀ m : ℚ, (safeDiv m (kg.1 : ℚ)).isSome)
      ∧ (∀ c : Case, c.miles_traveled = 0 → impliedRate c = 0) := by
  refine ⟨fun c hc => ?_, fun kg hkg m => ?_, fun c h0 => ?_⟩
  · have h := hdays c hc
    have hne : ((c.trip_duration_days : ℤ) : ℚ) ≠ 0 := Int.cast_ne_zero.mpr (by omega)
    refine ⟨?_, ?_, ?_⟩ <;> simp [safeDiv, hne]
  · have hmem : kg.1 ∈ (groupBy exactDayKey corpus).map Prod.fst :=
      List.mem_map_of_mem _ hkg
    rw [mem_keys_groupBy] at hmem
    rcases List.mem_map.mp hmem with ⟨c, hc, hkey⟩
    have h := hdays c hc
    have hc1 : exactDayKey c = c.trip_duration_days := rfl
    have hne : ((kg.1 : ℤ) : ℚ) ≠ 0 := by
      rw [← hkey, hc1]
      exact Int.cast_ne_zero.mpr (by omega)
    simp [safeDiv, hne]
  · rw [impliedRate, if_neg (by rw [h0]; exact lt_irrefl 0)]

/-- Witness for C7: the amended theorem at the one-case corpus holding the
zero-mileage case. -/
theorem c7_no_division_by_zero_witness :
    (safeDiv (0 : ℚ) (((1 : ℤ) : ℤ) : ℚ)).isSome ∧ impliedRate ⟨1, 0, 50, 150⟩ = 0 := by
  have h := c7_no_division_by_zero [⟨1, 0, 50, 150⟩] (by simp)
  exact ⟨(h.1 ⟨1, 0, 50, 150⟩ (by simp)).1, h.2.2 ⟨1, 0, 50, 150⟩ rfl⟩

/-- C8: the statistics summarizer raises (`none`, modelling
`statistics.StatisticsError`) on an empty group rather than returning a
number, returns the arithmetic mean of `expected_output` on every non-empty
group, and never raises on a group produced by the grouping pass, since
those are non-empty by construction. -/
theorem c8_empty_group_rejection :
    meanOutput [] = none
      ∧ (∀ g : List Case, g ≠ [] →
          meanOutput g = some ((g.map (fun c => c.expected_output)).sum / (g.length : ℚ)))
      ∧ (∀ (corpus : List Case) (kg : ℤ × List Case),
          kg ∈ groupBy exactDayKey corpus → (meanOutput kg.2).isSome) := by
  refine ⟨rfl, fun g hg => meanOutput_nonempty hg, fun corpus kg hkg => ?_⟩
  rw [meanOutput_nonempty (nonempty_groupBy kg hkg)]
  rfl

/-- Witness for C8: the summarizer evaluated on the non-empty scenario
group. -/
theorem c8_empty_group_rejection_witness :
    meanOutput [case1, case2]
      = some (([case1, case2].map (fun c => c.expected_output)).sum
          / (([case1, case2] : List Case).length : ℚ)) :=
  c8_empty_group_rejection.2.1 [case1, case2] (List.cons_ne_nil _ _)

/-- C9 counterexample: the baseline is not caller-supplied — for the
caller-chosen base amount 50 at `case1`, the source's implied rate (1/2,
computed with the hard-coded 100) differs from
`(expected_output - 50) / miles_traveled = 1`. -/
theorem c9_hardcoded_baseline_counterexample :
    impliedRate case1 ≠ (case1.expected_output - 50) / case1.miles_traveled := by
  norm_num [impliedRate, case1]

/-- C9 amended: the baselines are constants fixed in the source, not
caller-supplied parameters: the implied rate of every case with positive
mileage is `(expected_output - 100) / miles_traveled` with the hard-coded
base amount 100, and the bonus of every case is
`expected_output - 5 * 100` with the hard-coded five-day $100-per-day
baseline. -/
theorem c9_fixed_baselines (c : Case) (h : 0 < c.miles_traveled) :
    impliedRate c = (c.expected_output - 100) / c.miles_traveled
      ∧ bonus c = c.expected_output - 5 * 100 :=
  ⟨by rw [impliedRate, if_pos h], rfl⟩

/-- Witness for C9: the amended theorem at `case2`. -/
theorem c9_fixed_baselines_witness :
    impliedRate case2 = (case2.expected_output - 100) / case2.miles_traveled
      ∧ bonus case2 = case2.expected_output - 5 * 100 :=
  c9_fixed_baselines case2 (by norm_num [case2])

/-- C10: when a corpus has no one-day case, or no five-day case, the
`analyze_data` pass fails (`KeyError` on the unconditional `by_days[1]` or
`by_days[5]` lookup, modelled as `none`) instead of completing with only
the per-day summary — which by itself would have been available for any
non-empty corpus. -/
theorem c10_missing_day_groups :
    (∀ corpus : List Case, (∀ c ∈ corpus, c.trip_duration_days ≠ 1) →
        analyzeData corpus = none)
      ∧ (∀ corpus : List Case, (∀ c ∈ corpus, c.trip_duration_days ≠ 5) →
        analyzeData corpus = none)
      ∧ (∀ corpus : List Case, corpus ≠ [] → perDaySummary corpus ≠ []) := by
  refine ⟨fun corpus h => ?_, fun corpus h => ?_, fun corpus h => perDaySummary_ne_nil h⟩
  · have h1 : lookupGroup (groupBy exactDayKey corpus) 1 = none :=
      lookupGroup_groupBy_eq_none (fun c hc => h c hc)
    simp [analyzeData, h1]
  · have h5 : lookupGroup (groupBy exactDayKey corpus) 5 = none :=
      lookupGroup_groupBy_eq_none (fun c hc => h c hc)
    cases hl : lookupGroup (groupBy exactDayKey corpus) 1 with
    | none => simp [analyzeData, hl]
    | some one_day => simp [analyzeData, hl, h5]

/-- Witness for C10: a one-case corpus with a two-day trip has neither a
day-1 nor a day-5 group; the pass fails while its per-day summary is
non-empty. -/
theorem c10_missing_day_groups_witness :
    analyzeData [⟨2, 100, 50, 150⟩] = none
      ∧ perDaySummary [⟨2, 100, 50, 150⟩] ≠ [] :=
  ⟨c10_missing_day_groups.1 [⟨2, 100, 50, 150⟩] (by norm_num),
    c10_missing_day_groups.2.2 [⟨2, 100, 50, 150⟩] (List.cons_ne_nil _ _)⟩
